import Mathlib

/-!
# goQueryBuilder: a shallow embedding of `main.go`

The builder accumulates clause fragments and bind parameters; `Build` and
`BuildCount` render them in a fixed clause order; `Union` composes built
statements; `ReplaceQueryParams` inlines parameter values at `?` placeholders.

Modelling conventions
* Go `string` is `String`; a Go slice is a `List` (a nil slice and an empty
  slice are both `[]`, the source only ever asks for their length).
* Go `int` is `Int`.
* A method with a pointer receiver that mutates and returns the receiver is a
  function `QueryBuilder → QueryBuilder`.
* The fields `from`, `where`, `with` and the argument `alias` are Lean keywords
  and carry a trailing underscore, as `select_` already does in the source.
-/

namespace goquerybuilder

/-! ## Library functions used by the source -/

namespace strings

/-- Go `strings.Join(elems, sep)`: empty for no element, the element itself for
one, otherwise the elements with `sep` between consecutive ones. -/
def Join : List String → String → String
  | [], _ => ""
  | [a], _ => a
  | a :: b :: rest, sep => a ++ sep ++ Join (b :: rest) sep

/-- Character-level worker of `Replace` for a one-character `old`: scans left to
right and replaces at most `n` occurrences. -/
def replaceChars (old : Char) (new : List Char) : Nat → List Char → List Char
  | 0, s => s
  | _ + 1, [] => []
  | n + 1, c :: cs =>
    if c = old then new ++ replaceChars old new n cs
    else c :: replaceChars old new (n + 1) cs

/-- Go `strings.Replace(s, old, new, n)` for a one-character `old` and `n ≥ 0`:
the first `n` occurrences of `old` are replaced by `new`; a text without `old`
comes back unchanged. -/
def Replace (s : String) (old : Char) (new : String) (n : Nat) : String :=
  ⟨replaceChars old new.data n s.data⟩

/-- Number of occurrences of a character in a text. -/
def Count (s : String) (c : Char) : Nat := s.data.count c

end strings

/-- A `time.Time` value as its formatting reads it: the civil fields in the
value's own location and the rendered zone (offset and abbreviation).
Sub-second digits are not modelled. -/
structure Time where
  year : Nat
  month : Nat
  day : Nat
  hour : Nat
  minute : Nat
  second : Nat
  zone : String
  deriving DecidableEq, Repr

/-- Decimal digits of `n`, zero-padded on the left to at least `w` digits. -/
def zeroPad (w n : Nat) : String :=
  ⟨List.replicate (w - (Nat.repr n).length) '0'⟩ ++ Nat.repr n

/-- The call `t.Format("2006-01-02 15:04:05")`. -/
def Time.Format (t : Time) : String :=
  zeroPad 4 t.year ++ "-" ++ zeroPad 2 t.month ++ "-" ++ zeroPad 2 t.day ++ " " ++
    zeroPad 2 t.hour ++ ":" ++ zeroPad 2 t.minute ++ ":" ++ zeroPad 2 t.second

/-- The method `t.String()`, which is what `%v` prints for a `time.Time`:
layout `2006-01-02 15:04:05 -0700 MST` (whole seconds). -/
def Time.String (t : Time) : String :=
  t.Format ++ " " ++ t.zone

/-- A dynamically typed parameter (`interface{}`): the three kinds the debug
renderer tells apart, integers, and any other dynamic type, carried by the text
`%v` prints for it. -/
inductive Value where
  | str (s : String)
  | time (t : Time)
  | null
  | int (i : Int)
  | other (rendered : String)
  deriving DecidableEq, Repr

namespace fmt

/-- The text `fmt.Sprintf("%d", i)`. -/
def Sprintd (i : Int) : String := toString i

/-- The text `fmt.Sprintf("%v", v)`. -/
def Sprintv : Value → String
  | .str s => s
  | .time t => t.String
  | .null => "<nil>"
  | .int i => toString i
  | .other r => r

end fmt

/-! ## The clause store and its mutators -/

/-- The struct `QueryBuilder`. -/
structure QueryBuilder where
  select_ : List String
  from_ : String
  joins : List String
  where_ : List String
  groupBy : List String
  orderBy : List String
  limit : Int
  offset : Int
  params : List Value
  having : List String
  with_ : List String
  rawSQL : List String
  deriving DecidableEq, Repr

/-- The constructor `New()`: every field at its zero value. -/
def New : QueryBuilder :=
  { select_ := [], from_ := "", joins := [], where_ := [], groupBy := [], orderBy := [],
    limit := 0, offset := 0, params := [], having := [], with_ := [], rawSQL := [] }

def QueryBuilder.Select (qb : QueryBuilder) (columns : List String) : QueryBuilder :=
  { qb with select_ := qb.select_ ++ columns }

def QueryBuilder.From (qb : QueryBuilder) (table : String) : QueryBuilder :=
  { qb with from_ := table }

def QueryBuilder.Join (qb : QueryBuilder) (join : String) (params : List Value) : QueryBuilder :=
  { qb with joins := qb.joins ++ [join], params := qb.params ++ params }

def QueryBuilder.Where (qb : QueryBuilder) (condition : String) (params : List Value) :
    QueryBuilder :=
  { qb with where_ := qb.where_ ++ [condition], params := qb.params ++ params }

def QueryBuilder.GroupBy (qb : QueryBuilder) (columns : List String) : QueryBuilder :=
  { qb with groupBy := qb.groupBy ++ columns }

def QueryBuilder.OrderBy (qb : QueryBuilder) (order : String) : QueryBuilder :=
  { qb with orderBy := qb.orderBy ++ [order] }

def QueryBuilder.Limit (qb : QueryBuilder) (limit : Int) : QueryBuilder :=
  { qb with limit := limit }

def QueryBuilder.Offset (qb : QueryBuilder) (offset : Int) : QueryBuilder :=
  { qb with offset := offset }

/-- The method `Having`: the nil check only allocates, the append is the effect. -/
def QueryBuilder.Having (qb : QueryBuilder) (condition : String) (params : List Value) :
    QueryBuilder :=
  { qb with having := qb.having ++ [condition], params := qb.params ++ params }

def QueryBuilder.Raw (qb : QueryBuilder) (sql : String) (params : List Value) : QueryBuilder :=
  { qb with rawSQL := qb.rawSQL ++ [sql], params := qb.params ++ params }

/-! ## The assembler -/

/-- The `parts` slice of `Build` just before the final join: one append per
clause, in source order. -/
def QueryBuilder.buildParts (qb : QueryBuilder) : List String :=
  let parts : List String := []
  -- SELECT
  let parts :=
    if qb.select_.length > 0 then parts ++ ["SELECT " ++ strings.Join qb.select_ ", "]
    else parts ++ ["SELECT *"]
  -- FROM
  let parts := parts ++ ["FROM " ++ qb.from_]
  -- JOIN
  let parts := if qb.joins.length > 0 then parts ++ [strings.Join qb.joins " "] else parts
  -- WHERE
  let parts :=
    if qb.where_.length > 0 then parts ++ ["WHERE " ++ strings.Join qb.where_ " AND "] else parts
  -- GROUP BY
  let parts :=
    if qb.groupBy.length > 0 then parts ++ ["GROUP BY " ++ strings.Join qb.groupBy ", "]
    else parts
  -- ORDER BY
  let parts :=
    if qb.orderBy.length > 0 then parts ++ ["ORDER BY " ++ strings.Join qb.orderBy ", "]
    else parts
  -- LIMIT & OFFSET
  let parts :=
    if qb.limit > 0 then
      let parts := parts ++ ["LIMIT " ++ fmt.Sprintd qb.limit]
      if qb.offset > 0 then parts ++ ["OFFSET " ++ fmt.Sprintd qb.offset] else parts
    else parts
  parts

/-- The method `Build`. -/
def QueryBuilder.Build (qb : QueryBuilder) : String × List Value :=
  (strings.Join qb.buildParts " ", qb.params)

/-- The `parts` slice of `BuildCount` just before the final join. -/
def QueryBuilder.buildCountParts (qb : QueryBuilder) : List String :=
  let parts : List String := []
  let parts := parts ++ ["SELECT COUNT(*) as count"]
  let parts := parts ++ ["FROM " ++ qb.from_]
  let parts := if qb.joins.length > 0 then parts ++ [strings.Join qb.joins " "] else parts
  let parts :=
    if qb.where_.length > 0 then parts ++ ["WHERE " ++ strings.Join qb.where_ " AND "] else parts
  parts

/-- The method `BuildCount`. -/
def QueryBuilder.BuildCount (qb : QueryBuilder) : String × List Value :=
  (strings.Join qb.buildCountParts " ", qb.params)

/-! ## Combinators -/

/-- The loop of `Union`: `i` is the index of the head of the remaining queries,
`len` is `len(queries)`. -/
def unionLoop (len : Nat) :
    Nat → List QueryBuilder → List String → List Value → List String × List Value
  | _, [], unionParts, allParams => (unionParts, allParams)
  | i, q :: rest, unionParts, allParams =>
    let (query, params) := q.Build
    let unionParts := unionParts ++ ["(" ++ query ++ ")"]
    let allParams := allParams ++ params
    let unionParts :=
      if (i : Int) < (len : Int) - 1 then unionParts ++ ["UNION ALL"] else unionParts
    unionLoop len (i + 1) rest unionParts allParams

/-- The function `Union`. -/
def Union (queries : List QueryBuilder) : QueryBuilder :=
  let (unionParts, allParams) := unionLoop queries.length 0 queries [] []
  let result := New
  let result := { result with from_ := strings.Join unionParts " " }
  { result with params := allParams }

/-- The method `SubQuery`: the parameters of `Build` are discarded. -/
def QueryBuilder.SubQuery (qb : QueryBuilder) (alias_ : String) : String :=
  let (query, _) := qb.Build
  "(" ++ query ++ ") AS " ++ alias_

/-- The function `WithRecursive`. -/
def WithRecursive (name : String) (query : QueryBuilder) : QueryBuilder :=
  let (sql, params) := query.Build
  let result := New
  let result :=
    { result with with_ := result.with_ ++ ["WITH RECURSIVE " ++ name ++ " AS (" ++ sql ++ ")"] }
  { result with params := result.params ++ params }

/-- The method `Params`. -/
def QueryBuilder.Params (qb : QueryBuilder) : List Value :=
  let (_, params) := qb.Build
  params

/-- The method `GetQuery`. -/
def QueryBuilder.GetQuery (qb : QueryBuilder) : String × List Value :=
  qb.Build

/-- The method `String`. -/
def QueryBuilder.String (qb : QueryBuilder) : String :=
  let (query, _) := qb.Build
  query

/-! ## The debug renderer -/

/-- The type switch of `ReplaceQueryParams`: the text put in place of a `?`. -/
def formatArg : Value → String
  | .str v => "'" ++ v ++ "'"
  | .time v => "'" ++ v.Format ++ "'"
  | .null => "NULL"
  | v => fmt.Sprintv v

/-- The function `ReplaceQueryParams`, as the value it returns (the diagnostic
print of the result does not change it). -/
def ReplaceQueryParams (query : String) (args : List Value) : String :=
  if args.length = 0 then query
  else args.foldl (fun query arg => strings.Replace query '?' (formatArg arg) 1) query

/-! ## The clause order as the specification words it -/

/-- The clauses of a statement in the documented order, each one present or
absent: `SELECT`, `FROM`, joins, `WHERE`, `GROUP BY`, `ORDER BY`, `LIMIT`,
`OFFSET`. -/
def specClauses (qb : QueryBuilder) : List (Option String) :=
  [ some (if qb.select_ = [] then "SELECT *" else "SELECT " ++ ", ".intercalate qb.select_),
    some ("FROM " ++ qb.from_),
    if qb.joins = [] then none else some (" ".intercalate qb.joins),
    if qb.where_ = [] then none else some ("WHERE " ++ " AND ".intercalate qb.where_),
    if qb.groupBy = [] then none else some ("GROUP BY " ++ ", ".intercalate qb.groupBy),
    if qb.orderBy = [] then none else some ("ORDER BY " ++ ", ".intercalate qb.orderBy),
    if 0 < qb.limit then some ("LIMIT " ++ toString qb.limit) else none,
    if 0 < qb.limit ∧ 0 < qb.offset then some ("OFFSET " ++ toString qb.offset) else none ]

/-- The documented statement text: the present clauses joined by one space. -/
def specText (qb : QueryBuilder) : String :=
  " ".intercalate (specClauses qb).reduceOption

/-! ## Definitions used to state the properties -/

/-- The store after the calls `Where(c_1, ps_1)`, ..., `Where(c_n, ps_n)`. -/
def applyWheres (qb : QueryBuilder) (calls : List (String × List Value)) : QueryBuilder :=
  calls.foldl (fun qb c => qb.Where c.1 c.2) qb

/-- The same store with limit and offset both reset to 0. -/
def unpaged (qb : QueryBuilder) : QueryBuilder :=
  { qb with limit := 0, offset := 0 }

/-- The loop of `ReplaceQueryParams` on the characters of the text. -/
def renderChars (q : List Char) (args : List Value) : List Char :=
  args.foldl (fun q arg => strings.replaceChars '?' (formatArg arg).data 1 q) q

/-- The part of a text after its `n`-th occurrence of `c` (the whole text for
`n = 0`, nothing when there are fewer than `n` occurrences). -/
def dropThrough (c : Char) : Nat → List Char → List Char
  | 0, s => s
  | _ + 1, [] => []
  | n + 1, x :: xs => if x = c then dropThrough c n xs else dropThrough c (n + 1) xs

/-- The rendering of a parameter with three kinds only: a string in single
quotes, nil as `NULL`, any other value by its default conversion. -/
def threeKindFormat : Value → String
  | .str s => "'" ++ s ++ "'"
  | .null => "NULL"
  | v => fmt.Sprintv v

/-- The timestamp 2009-11-10 23:00:00 UTC. -/
def sampleTime : Time :=
  { year := 2009, month := 11, day := 10, hour := 23, minute := 0, second := 0,
    zone := "+0000 UTC" }

/-- One mutator call with its arguments. -/
inductive Call where
  | Select (columns : List String)
  | From (table : String)
  | Join (join : String) (params : List Value)
  | Where (condition : String) (params : List Value)
  | GroupBy (columns : List String)
  | OrderBy (order : String)
  | Limit (limit : Int)
  | Offset (offset : Int)
  | Having (condition : String) (params : List Value)
  | Raw (sql : String) (params : List Value)
  deriving DecidableEq, Repr

/-- The store after one mutator call. -/
def QueryBuilder.call (qb : QueryBuilder) : Call → QueryBuilder
  | .Select columns => qb.Select columns
  | .From table => qb.From table
  | .Join join params => qb.Join join params
  | .Where condition params => qb.Where condition params
  | .GroupBy columns => qb.GroupBy columns
  | .OrderBy order => qb.OrderBy order
  | .Limit limit => qb.Limit limit
  | .Offset offset => qb.Offset offset
  | .Having condition params => qb.Having condition params
  | .Raw sql params => qb.Raw sql params

/-- The store after a sequence of mutator calls, first call first. -/
def QueryBuilder.calls (qb : QueryBuilder) (cs : List Call) : QueryBuilder :=
  cs.foldl QueryBuilder.call qb

/-- The `params` argument of a call; the calls without one pass nothing. -/
def Call.params : Call → List Value
  | .Join _ params => params
  | .Where _ params => params
  | .Having _ params => params
  | .Raw _ params => params
  | _ => []

/-- The sequence fields of the store that hold fragments. -/
inductive Slot where
  | select | joins | where_ | groupBy | orderBy | having | rawSQL | with_
  deriving DecidableEq, Repr

/-- The content of a sequence field. -/
def slotOf (qb : QueryBuilder) : Slot → List String
  | .select => qb.select_
  | .joins => qb.joins
  | .where_ => qb.where_
  | .groupBy => qb.groupBy
  | .orderBy => qb.orderBy
  | .having => qb.having
  | .rawSQL => qb.rawSQL
  | .with_ => qb.with_

/-- The fragments a call passes for a sequence field: its arguments for the field
it targets, nothing for every other field. -/
def Call.fragments : Call → Slot → List String
  | .Select columns, .select => columns
  | .Join join _, .joins => [join]
  | .Where condition _, .where_ => [condition]
  | .GroupBy columns, .groupBy => columns
  | .OrderBy order, .orderBy => [order]
  | .Having condition _, .having => [condition]
  | .Raw sql _, .rawSQL => [sql]
  | _, _ => []

/-- The clause slots a caller fills through the eight clause mutators. -/
inductive Clause where
  | select | from_ | join | where_ | groupBy | orderBy | limit | offset
  deriving DecidableEq, Repr

/-- The clause slot a call targets; `Having` and `Raw` target none of them. -/
def Call.clause : Call → Option Clause
  | .Select _ => some .select
  | .From _ => some .from_
  | .Join _ _ => some .join
  | .Where _ _ => some .where_
  | .GroupBy _ => some .groupBy
  | .OrderBy _ => some .orderBy
  | .Limit _ => some .limit
  | .Offset _ => some .offset
  | .Having _ _ => none
  | .Raw _ _ => none

/-! ### The reading methods as steps on the mutable store

Each reading method has a pointer receiver; as a step it returns its result
together with the store it leaves behind. Their bodies assign to local variables
only. -/

/-- The method `Build` as a step. -/
def stepBuild (qb : QueryBuilder) : (String × List Value) × QueryBuilder :=
  let parts := qb.buildParts
  ((strings.Join parts " ", qb.params), qb)

/-- The method `BuildCount` as a step. -/
def stepBuildCount (qb : QueryBuilder) : (String × List Value) × QueryBuilder :=
  let parts := qb.buildCountParts
  ((strings.Join parts " ", qb.params), qb)

/-- The method `String` as a step. -/
def stepString (qb : QueryBuilder) : String × QueryBuilder :=
  let ((query, _), qb) := stepBuild qb
  (query, qb)

/-- The method `Params` as a step. -/
def stepParams (qb : QueryBuilder) : List Value × QueryBuilder :=
  let ((_, params), qb) := stepBuild qb
  (params, qb)

/-- The method `GetQuery` as a step. -/
def stepGetQuery (qb : QueryBuilder) : (String × List Value) × QueryBuilder :=
  stepBuild qb

/-- The method `SubQuery` as a step. -/
def stepSubQuery (qb : QueryBuilder) (alias_ : String) : String × QueryBuilder :=
  let ((query, _), qb) := stepBuild qb
  ("(" ++ query ++ ") AS " ++ alias_, qb)

/-- The number of `?` characters in a list of fragments. -/
def placeholders (l : List String) : Nat :=
  (l.map (fun s => strings.Count s '?')).sum

/-- A balanced call: one of the eight clause mutators, with no `?` in a select,
from, group-by or order-by fragment and, for `Join` and `Where`, exactly as many
params as the fragment has `?` characters. -/
def Call.balanced : Call → Prop
  | .Select columns => ∀ c ∈ columns, strings.Count c '?' = 0
  | .From table => strings.Count table '?' = 0
  | .Join join params => params.length = strings.Count join '?'
  | .Where condition params => params.length = strings.Count condition '?'
  | .GroupBy columns => ∀ c ∈ columns, strings.Count c '?' = 0
  | .OrderBy order => strings.Count order '?' = 0
  | .Limit _ => True
  | .Offset _ => True
  | .Having _ _ => False
  | .Raw _ _ => False

instance Call.decBalanced : (c : Call) → Decidable c.balanced
  | .Select columns => inferInstanceAs (Decidable (∀ c ∈ columns, strings.Count c '?' = 0))
  | .From table => inferInstanceAs (Decidable (strings.Count table '?' = 0))
  | .Join join params => inferInstanceAs (Decidable (params.length = strings.Count join '?'))
  | .Where condition params =>
    inferInstanceAs (Decidable (params.length = strings.Count condition '?'))
  | .GroupBy columns => inferInstanceAs (Decidable (∀ c ∈ columns, strings.Count c '?' = 0))
  | .OrderBy order => inferInstanceAs (Decidable (strings.Count order '?' = 0))
  | .Limit _ => inferInstanceAs (Decidable True)
  | .Offset _ => inferInstanceAs (Decidable True)
  | .Having _ _ => inferInstanceAs (Decidable False)
  | .Raw _ _ => inferInstanceAs (Decidable False)

/-- The balance kept by balanced calls: no `?` outside the join and where
fragments, and as many stored parameters as `?` characters in those. -/
def Balanced (qb : QueryBuilder) : Prop :=
  placeholders qb.select_ = 0 ∧ strings.Count qb.from_ '?' = 0
  ∧ placeholders qb.groupBy = 0 ∧ placeholders qb.orderBy = 0
  ∧ placeholders qb.joins + placeholders qb.where_ = qb.params.length

/-! ## Facts about the library functions -/

theorem intercalate_go_append (x y sep : String) (l : List String) :
    String.intercalate.go (x ++ y) sep l = x ++ String.intercalate.go y sep l := by
  induction l generalizing y with
  | nil => rfl
  | cons a l ih =>
    simp only [String.intercalate.go]
    rw [String.append_assoc, String.append_assoc, ih, String.append_assoc]

theorem intercalate_cons_cons (sep a b : String) (l : List String) :
    sep.intercalate (a :: b :: l) = a ++ sep ++ sep.intercalate (b :: l) := by
  simp only [String.intercalate, String.intercalate.go]
  rw [String.append_assoc, intercalate_go_append, String.append_assoc, intercalate_go_append]

theorem Join_eq_intercalate (l : List String) (sep : String) :
    strings.Join l sep = sep.intercalate l := by
  induction l with
  | nil => rfl
  | cons a l ih =>
    cases l with
    | nil => rfl
    | cons b l => rw [strings.Join, ih, intercalate_cons_cons]

theorem Join_append_singleton (l : List String) (x sep : String) (h : l ≠ []) :
    strings.Join (l ++ [x]) sep = strings.Join l sep ++ sep ++ x := by
  induction l with
  | nil => exact absurd rfl h
  | cons a l ih =>
    cases l with
    | nil => simp [strings.Join]
    | cons b l =>
      have := ih (by simp)
      simp only [List.cons_append] at this ⊢
      rw [strings.Join, this, strings.Join]
      simp [String.append_assoc]

theorem length_pos_iff_ne_nil {α : Type} (l : List α) : l.length > 0 ↔ l ≠ [] := by
  cases l <;> simp

/-! ## The assembler: fixed clause order -/

/-- C1: for every store, `Build` returns as text the single-space join of the
clauses in the fixed order SELECT (or `SELECT *`), FROM, joins, WHERE, GROUP BY,
ORDER BY, LIMIT (only for a positive limit), OFFSET (only for a positive limit
and a positive offset), each optional clause present only when it is non-empty,
and returns as parameter list the accumulated parameters of the store. -/
theorem C1_Build_fixed_clause_order (qb : QueryBuilder) :
    qb.Build = (specText qb, qb.params) := by
  simp only [QueryBuilder.Build, QueryBuilder.buildParts, specText, specClauses,
    Join_eq_intercalate, length_pos_iff_ne_nil, fmt.Sprintd, gt_iff_lt]
  congr 1
  by_cases h1 : qb.select_ = [] <;> by_cases h2 : qb.joins = [] <;>
    by_cases h3 : qb.where_ = [] <;> by_cases h4 : qb.groupBy = [] <;>
    by_cases h5 : qb.orderBy = [] <;> by_cases h6 : 0 < qb.limit <;>
    by_cases h7 : 0 < qb.offset <;>
    simp [h1, h2, h3, h4, h5, h6, h7, List.reduceOption]

/-! ## Sequences of `Where` calls -/

theorem applyWheres_eq (qb : QueryBuilder) (calls : List (String × List Value)) :
    applyWheres qb calls =
      { qb with where_ := qb.where_ ++ calls.map Prod.fst,
                params := qb.params ++ (calls.map Prod.snd).flatten } := by
  induction calls generalizing qb with
  | nil => simp [applyWheres]
  | cons c calls ih =>
    have := ih (qb.Where c.1 c.2)
    simp only [applyWheres, List.foldl_cons] at this ⊢
    rw [this]
    simp [QueryBuilder.Where]

/-- C2: for every table name `t` and every sequence of `Where` calls applied in
order to `New().From(t)`, `Build` returns `SELECT * FROM t` when there is no
call (no `WHERE` part) and `SELECT * FROM t WHERE c_1 AND ... AND c_n`
(conditions in call order) otherwise; the parameter list is the concatenation
`ps_1 ++ ... ++ ps_n`, empty when there is no call. -/
theorem C2_Build_where_sequence (t : String) (calls : List (String × List Value)) :
    (applyWheres (New.From t) calls).Build =
      (if calls = [] then "SELECT * FROM " ++ t
        else "SELECT * FROM " ++ t ++ " WHERE " ++ " AND ".intercalate (calls.map Prod.fst),
       (calls.map Prod.snd).flatten) := by
  rw [applyWheres_eq]
  cases calls with
  | nil => simp [QueryBuilder.Build, QueryBuilder.buildParts, New, QueryBuilder.From,
      strings.Join, ← String.append_assoc]
  | cons c calls =>
    simp [QueryBuilder.Build, QueryBuilder.buildParts, New, QueryBuilder.From,
      strings.Join, ← String.append_assoc, ← Join_eq_intercalate]
    simp only [String.append_assoc]
    rfl

/-! ## LIMIT and OFFSET -/

theorem buildParts_unpaged_ne_nil (qb : QueryBuilder) : (unpaged qb).buildParts ≠ [] := by
  simp only [QueryBuilder.buildParts, unpaged]
  split_ifs <;> simp

theorem buildParts_paging (qb : QueryBuilder) :
    qb.buildParts = (unpaged qb).buildParts ++
      (if qb.limit > 0 then
        (if qb.offset > 0 then
          ["LIMIT " ++ fmt.Sprintd qb.limit, "OFFSET " ++ fmt.Sprintd qb.offset]
        else ["LIMIT " ++ fmt.Sprintd qb.limit])
      else []) := by
  simp only [QueryBuilder.buildParts, unpaged]
  by_cases h1 : qb.limit > 0 <;> by_cases h2 : qb.offset > 0 <;> simp [h1, h2]

theorem Join_append_pair (l : List String) (x y sep : String) (h : l ≠ []) :
    strings.Join (l ++ [x, y]) sep = strings.Join l sep ++ sep ++ x ++ sep ++ y := by
  have e : l ++ [x, y] = (l ++ [x]) ++ [y] := by simp
  rw [e, Join_append_singleton _ _ _ (by simp), Join_append_singleton _ _ _ h]

/-- C3: writing `base` for the `Build` text of the store with limit and offset
reset to 0, the `Build` text is `base` when the limit is not positive (whatever
the offset), `base LIMIT n` when the limit `n` is positive and the offset is not,
and `base LIMIT n OFFSET m` when both are positive; so `Limit(5).Offset(10)`
ends in `LIMIT 5 OFFSET 10` and `Limit(0).Offset(10)` adds nothing. -/
theorem C3_Build_limit_offset (qb : QueryBuilder) :
    qb.Build.1 =
      (if qb.limit ≤ 0 then (unpaged qb).Build.1
       else if qb.offset ≤ 0 then (unpaged qb).Build.1 ++ " LIMIT " ++ toString qb.limit
       else (unpaged qb).Build.1 ++ " LIMIT " ++ toString qb.limit
              ++ " OFFSET " ++ toString qb.offset)
    ∧ ((qb.Limit 5).Offset 10).Build.1 = (unpaged qb).Build.1 ++ " LIMIT 5 OFFSET 10"
    ∧ ((qb.Limit 0).Offset 10).Build.1 = (unpaged qb).Build.1 := by
  have main : ∀ q : QueryBuilder, q.Build.1 =
      (if q.limit ≤ 0 then (unpaged q).Build.1
       else if q.offset ≤ 0 then (unpaged q).Build.1 ++ " LIMIT " ++ toString q.limit
       else (unpaged q).Build.1 ++ " LIMIT " ++ toString q.limit
              ++ " OFFSET " ++ toString q.offset) := by
    intro q
    have hne := buildParts_unpaged_ne_nil q
    simp only [QueryBuilder.Build]
    rw [buildParts_paging q]
    by_cases h1 : q.limit > 0
    · have h1' : ¬ q.limit ≤ 0 := by omega
      by_cases h2 : q.offset > 0
      · have h2' : ¬ q.offset ≤ 0 := by omega
        rw [if_pos h1, if_pos h2, if_neg h1', if_neg h2', Join_append_pair _ _ _ _ hne]
        simp only [fmt.Sprintd, String.append_assoc]
        rfl
      · have h2' : q.offset ≤ 0 := by omega
        rw [if_pos h1, if_neg h2, if_neg h1', if_pos h2', Join_append_singleton _ _ _ hne]
        simp only [fmt.Sprintd, String.append_assoc]
        rfl
    · have h1' : q.limit ≤ 0 := by omega
      rw [if_neg h1, if_pos h1', List.append_nil]
  refine ⟨main qb, ?_, ?_⟩
  · rw [main]
    simp only [QueryBuilder.Limit, QueryBuilder.Offset, unpaged, String.append_assoc]
    rfl
  · rw [main]
    simp [QueryBuilder.Limit, QueryBuilder.Offset, unpaged]

/-! ## The count statement -/

/-- C4: `BuildCount` returns `SELECT COUNT(*) as count FROM <from>`, then the
join fragments joined by one space when there are any, then `WHERE` and the
conditions joined by `AND` when there are any, and nothing else; its parameter
list is the full list of the store, the one `Build` returns; so two stores that
agree on from, joins, where and params have the same `BuildCount` result. -/
theorem C4_BuildCount_ignores_other_clauses (qb qb2 : QueryBuilder) :
    qb.BuildCount =
      ("SELECT COUNT(*) as count FROM " ++ qb.from_
        ++ (if qb.joins = [] then "" else " " ++ " ".intercalate qb.joins)
        ++ (if qb.where_ = [] then "" else " WHERE " ++ " AND ".intercalate qb.where_),
       qb.params)
    ∧ qb.BuildCount.2 = qb.Build.2
    ∧ (qb2.from_ = qb.from_ → qb2.joins = qb.joins → qb2.where_ = qb.where_ →
        qb2.params = qb.params → qb2.BuildCount = qb.BuildCount) := by
  refine ⟨?_, rfl, ?_⟩
  · simp only [QueryBuilder.BuildCount, QueryBuilder.buildCountParts, length_pos_iff_ne_nil,
      gt_iff_lt, List.nil_append]
    congr 1
    by_cases h1 : qb.joins = [] <;> by_cases h2 : qb.where_ = [] <;>
      simp [h1, h2, strings.Join, ← Join_eq_intercalate] <;>
      (try simp only [String.append_assoc]) <;> rfl
  · intro h1 h2 h3 h4
    simp only [QueryBuilder.BuildCount, QueryBuilder.buildCountParts, h1, h2, h3, h4]

/-- Witness for C4: two stores that differ in select, group-by, order-by, limit
and offset only. -/
theorem C4_BuildCount_ignores_other_clauses_witness :
    ((((((New.From "t").Where "a = ?" [.int 1]).Select ["x"]).GroupBy ["x"]).OrderBy "x").Limit
        3).BuildCount
      = ((New.From "t").Where "a = ?" [.int 1]).BuildCount :=
  (C4_BuildCount_ignores_other_clauses ((New.From "t").Where "a = ?" [.int 1])
    ((((((New.From "t").Where "a = ?" [.int 1]).Select ["x"]).GroupBy ["x"]).OrderBy "x").Limit 3)
    ).2.2 rfl rfl rfl rfl

/-! ## Union -/

theorem unionLoop_eq (len : Nat) (queries : List QueryBuilder) (i : Nat)
    (unionParts : List String) (allParams : List Value) (h : len = i + queries.length) :
    unionLoop len i queries unionParts allParams =
      (unionParts ++ List.intersperse "UNION ALL"
          (queries.map (fun q => "(" ++ q.Build.1 ++ ")")),
       allParams ++ (queries.map (fun q => q.Build.2)).flatten) := by
  induction queries generalizing i unionParts allParams with
  | nil => simp [unionLoop]
  | cons q rest ih =>
    cases rest with
    | nil =>
      have hlt : ¬ ((i : Int) < (len : Int) - 1) := by
        simp only [List.length_singleton] at h
        omega
      simp [unionLoop, hlt]
    | cons q2 rest =>
      have hlt : (i : Int) < (len : Int) - 1 := by
        simp only [List.length_cons] at h
        omega
      have h2 : len = (i + 1) + (q2 :: rest).length := by
        simp only [List.length_cons] at h ⊢
        omega
      rw [unionLoop]
      simp only [hlt, if_true]
      rw [ih (i + 1) _ _ h2]
      simp [List.intersperse]

theorem Join_cons (x : String) (l : List String) (sep : String) (h : l ≠ []) :
    strings.Join (x :: l) sep = x ++ sep ++ strings.Join l sep := by
  cases l with
  | nil => exact absurd rfl h
  | cons b l => rfl

theorem intersperse_cons_ne_nil (m b : String) (l : List String) :
    List.intersperse m (b :: l) ≠ [] := by
  cases l <;> simp [List.intersperse]

theorem Join_intersperse (l : List String) (m sep : String) :
    strings.Join (List.intersperse m l) sep = strings.Join l (sep ++ m ++ sep) := by
  induction l with
  | nil => rfl
  | cons a l ih =>
    cases l with
    | nil => rfl
    | cons b l =>
      have e : List.intersperse m (a :: b :: l) = a :: m :: List.intersperse m (b :: l) := rfl
      rw [e, Join_cons a _ _ (by simp), Join_cons m _ _ (intersperse_cons_ne_nil m b l), ih,
        Join_cons a (b :: l) _ (by simp)]
      simp only [String.append_assoc]

/-- C5: for every list of stores, `Union` returns a store whose from source is
the texts `(` + `Build` text + `)` joined with ` UNION ALL ` between consecutive
entries (empty for no store, the single wrapped text for one), whose parameter
list is the concatenation of the `Build` parameter lists in input order, and
whose other fields are those of an empty store; in particular
`Union(a, b).from = (textOf a) UNION ALL (textOf b)` with parameters
`paramsOf a ++ paramsOf b`. -/
theorem C5_Union_from_and_params (queries : List QueryBuilder) (a b : QueryBuilder) :
    Union queries =
      { New with
        from_ := " UNION ALL ".intercalate (queries.map (fun q => "(" ++ q.Build.1 ++ ")")),
        params := (queries.map (fun q => q.Build.2)).flatten }
    ∧ (Union []).from_ = ""
    ∧ (Union [a]).from_ = "(" ++ a.Build.1 ++ ")"
    ∧ (Union [a, b]).from_ = "(" ++ a.Build.1 ++ ") UNION ALL (" ++ b.Build.1 ++ ")"
    ∧ (Union [a, b]).params = a.Build.2 ++ b.Build.2 := by
  have main : ∀ qs : List QueryBuilder, Union qs =
      { New with
        from_ := " UNION ALL ".intercalate (qs.map (fun q => "(" ++ q.Build.1 ++ ")")),
        params := (qs.map (fun q => q.Build.2)).flatten } := by
    intro qs
    have e : (" " : String) ++ "UNION ALL" ++ " " = " UNION ALL " := by decide
    simp only [Union]
    rw [unionLoop_eq qs.length qs 0 [] [] (by simp)]
    simp only [List.nil_append]
    rw [Join_intersperse, e, Join_eq_intercalate]
  refine ⟨main queries, ?_, ?_, ?_, ?_⟩
  · rw [main]; rfl
  · rw [main]; rfl
  · rw [main]
    simp only [List.map, intercalate_cons_cons, String.intercalate, String.intercalate.go,
      String.append_assoc]
    rfl
  · rw [main]; simp

/-! ## Fragments that are stored but never rendered -/

/-- C6: after `Having(s, ps)` the `Build` text is exactly the `Build` text of the
store before the call and the parameter list is the earlier one followed by
`ps`; the same holds for `Raw(s, ps)`, and the same holds for `BuildCount`. -/
theorem C6_Having_Raw_not_rendered (qb : QueryBuilder) (s : String) (ps : List Value) :
    (qb.Having s ps).Build = (qb.Build.1, qb.Build.2 ++ ps)
    ∧ (qb.Raw s ps).Build = (qb.Build.1, qb.Build.2 ++ ps)
    ∧ (qb.Having s ps).BuildCount = (qb.BuildCount.1, qb.BuildCount.2 ++ ps)
    ∧ (qb.Raw s ps).BuildCount = (qb.BuildCount.1, qb.BuildCount.2 ++ ps) := by
  refine ⟨?_, ?_, ?_, ?_⟩ <;> rfl

/-! ## The debug renderer at the level of characters -/

theorem foldl_Replace_data (q : String) (args : List Value) :
    (args.foldl (fun q arg => strings.Replace q '?' (formatArg arg) 1) q).data =
      renderChars q.data args := by
  induction args generalizing q with
  | nil => rfl
  | cons a args ih =>
    simp only [List.foldl_cons, renderChars]
    rw [ih]
    rfl

theorem ReplaceQueryParams_data (q : String) (args : List Value) :
    (ReplaceQueryParams q args).data = renderChars q.data args := by
  unfold ReplaceQueryParams
  split
  · next h =>
    have : args = [] := List.length_eq_zero.mp h
    subst this
    rfl
  · exact foldl_Replace_data q args

theorem replaceChars_of_not_mem (c : Char) (v : List Char) (n : Nat) (s : List Char)
    (h : c ∉ s) : strings.replaceChars c v n s = s := by
  induction s generalizing n with
  | nil => cases n <;> rfl
  | cons x xs ih =>
    cases n with
    | zero => rfl
    | succ n =>
      have hx : ¬ x = c := fun e => h (by simp [e])
      have hxs : c ∉ xs := fun e => h (by simp [e])
      simp only [strings.replaceChars, hx, if_false, ih _ hxs]

theorem replaceChars_one_append (c : Char) (v p r : List Char) (h : c ∉ p) :
    strings.replaceChars c v 1 (p ++ c :: r) = p ++ v ++ r := by
  induction p with
  | nil => simp [strings.replaceChars]
  | cons x xs ih =>
    have hx : ¬ x = c := fun e => h (by simp [e])
    have hxs : c ∉ xs := fun e => h (by simp [e])
    have e := ih hxs
    simp only [List.cons_append, strings.replaceChars, hx, if_false]
    exact congrArg (List.cons x) e

theorem replaceChars_one_suffix (c : Char) (v l r : List Char) :
    ∃ pre, strings.replaceChars c v 1 (l ++ c :: r) = pre ++ r := by
  induction l with
  | nil => exact ⟨v, by simp [strings.replaceChars]⟩
  | cons x xs ih =>
    by_cases hx : x = c
    · exact ⟨v ++ xs ++ [c], by simp [strings.replaceChars, hx]⟩
    · obtain ⟨pre, hpre⟩ := ih
      exact ⟨x :: pre, by simp [strings.replaceChars, hx, hpre]⟩

theorem count_replaceChars_one (c : Char) (v s : List Char) (h : 0 < s.count c) :
    (strings.replaceChars c v 1 s).count c = s.count c - 1 + v.count c := by
  induction s with
  | nil => simp at h
  | cons x xs ih =>
    by_cases hx : x = c
    · subst hx
      simp [strings.replaceChars, List.count_append]
      omega
    · have hc : (x :: xs).count c = xs.count c := by
        simp [List.count_cons, hx]
      rw [hc] at h ⊢
      simp only [strings.replaceChars, hx, if_false]
      rw [List.count_cons, ih h]
      simp [hx]

theorem renderChars_of_not_mem (s : List Char) (args : List Value) (h : '?' ∉ s) :
    renderChars s args = s := by
  induction args with
  | nil => rfl
  | cons a args ih =>
    simp only [renderChars, List.foldl_cons] at ih ⊢
    rw [replaceChars_of_not_mem _ _ _ _ h, ih]

theorem renderChars_weave (args : List Value) (ps : List String) (pre : List Char)
    (hlen : args.length = ps.length) (hpre : '?' ∉ pre)
    (hps : ∀ p ∈ ps, '?' ∉ p.data) (hargs : ∀ a ∈ args, '?' ∉ (formatArg a).data) :
    renderChars (pre ++ (String.join (ps.map (fun p => "?" ++ p))).data) args =
      pre ++ (String.join (List.zipWith (fun a p => formatArg a ++ p) args ps)).data := by
  induction args generalizing ps pre with
  | nil =>
    cases ps with
    | nil => rfl
    | cons p ps => simp at hlen
  | cons a args ih =>
    cases ps with
    | nil => simp at hlen
    | cons p ps =>
      have hlen2 : args.length = ps.length := by simpa using hlen
      have hp : '?' ∉ p.data := hps p (by simp)
      have ha : '?' ∉ (formatArg a).data := hargs a (by simp)
      have hpre2 : '?' ∉ pre ++ (formatArg a).data ++ p.data := by
        simp only [List.mem_append, not_or]
        exact ⟨⟨hpre, ha⟩, hp⟩
      have step := ih ps (pre ++ (formatArg a).data ++ p.data) hlen2 hpre2
        (fun q hq => hps q (by simp [hq])) (fun b hb => hargs b (by simp [hb]))
      have e : pre ++ (String.join (List.map (fun p => "?" ++ p) (p :: ps))).data =
          pre ++ '?' :: (p.data ++ (String.join (List.map (fun p => "?" ++ p) ps)).data) := by
        simp only [String.data_join, List.map_cons, List.flatten_cons, String.data_append]
        rfl
      rw [e]
      simp only [renderChars, List.foldl_cons] at step ⊢
      rw [replaceChars_one_append _ _ _ _ hpre]
      simp only [List.append_assoc] at step ⊢
      rw [step]
      simp [String.data_join]

theorem count_weave (ps : List String) (hps : ∀ p ∈ ps, '?' ∉ p.data) :
    (String.join (ps.map (fun p => "?" ++ p))).data.count '?' = ps.length := by
  induction ps with
  | nil => rfl
  | cons p ps ih =>
    have hp : p.data.count '?' = 0 := List.count_eq_zero.mpr (hps p (by simp))
    have ih2 := ih (fun q hq => hps q (by simp [hq]))
    simp only [String.data_join, List.map_cons, List.flatten_cons, String.data_append,
      List.count_append, List.length_cons] at ih2 ⊢
    rw [ih2, hp]
    have : List.count '?' ['?'] = 1 := by decide
    omega

theorem dropThrough_nil (c : Char) (n : Nat) : dropThrough c n [] = [] := by
  cases n <;> rfl

theorem dropThrough_zero (c : Char) (s : List Char) : dropThrough c 0 s = s := by
  cases s <;> rfl

theorem dropThrough_succ (c : Char) (n : Nat) (s : List Char) :
    dropThrough c (n + 1) s = dropThrough c n (dropThrough c 1 s) := by
  induction s with
  | nil => simp [dropThrough_nil]
  | cons x xs ih =>
    by_cases hx : x = c
    · simp [dropThrough, hx]
    · simp only [dropThrough, hx, if_false]
      exact ih

theorem split_at_first (c : Char) (s : List Char) (h : 0 < s.count c) :
    ∃ before, s = before ++ c :: dropThrough c 1 s := by
  induction s with
  | nil => simp at h
  | cons x xs ih =>
    by_cases hx : x = c
    · exact ⟨[], by simp [dropThrough, hx]⟩
    · have hc : 0 < xs.count c := by
        simpa [List.count_cons, hx] using h
      obtain ⟨before, hb⟩ := ih hc
      refine ⟨x :: before, ?_⟩
      simp only [dropThrough, hx, if_false, List.cons_append]
      exact congrArg (List.cons x) hb

theorem count_dropThrough_one (c : Char) (s : List Char) :
    (dropThrough c 1 s).count c = s.count c - 1 := by
  induction s with
  | nil => rfl
  | cons x xs ih =>
    by_cases hx : x = c
    · simp [dropThrough, hx]
    · simp only [dropThrough, hx, if_false]
      rw [List.count_cons]
      simp only [beq_iff_eq, hx, if_false, Nat.add_zero]
      exact ih

theorem count_dropThrough (c : Char) (n : Nat) (s : List Char) :
    (dropThrough c n s).count c = s.count c - n := by
  induction n generalizing s with
  | zero => rw [dropThrough_zero, Nat.sub_zero]
  | succ n ih =>
    rw [dropThrough_succ, ih, count_dropThrough_one]
    omega

theorem renderChars_suffix (args : List Value) (pre s : List Char)
    (h : args.length ≤ s.count '?') :
    ∃ out, renderChars (pre ++ s) args = out ++ dropThrough '?' args.length s := by
  induction args generalizing pre s with
  | nil => exact ⟨pre, by simp [renderChars, dropThrough_zero]⟩
  | cons a args ih =>
    have hpos : 0 < s.count '?' := by
      simp only [List.length_cons] at h
      omega
    obtain ⟨before, hb⟩ := split_at_first '?' s hpos
    obtain ⟨pre2, h2⟩ :=
      replaceChars_one_suffix '?' (formatArg a).data (pre ++ before) (dropThrough '?' 1 s)
    have hlen : args.length ≤ (dropThrough '?' 1 s).count '?' := by
      rw [count_dropThrough_one]
      simp only [List.length_cons] at h
      omega
    obtain ⟨out, hout⟩ := ih pre2 (dropThrough '?' 1 s) hlen
    refine ⟨out, ?_⟩
    have e : pre ++ s = (pre ++ before) ++ '?' :: dropThrough '?' 1 s := by
      rw [List.append_assoc, ← hb]
    simp only [renderChars, List.foldl_cons, List.length_cons] at hout ⊢
    rw [e, h2, hout, dropThrough_succ '?' args.length s]

theorem renderChars_take (args : List Value) (s : List Char)
    (h : ∀ a ∈ args.take (s.count '?'), '?' ∉ (formatArg a).data) :
    renderChars s args = renderChars s (args.take (s.count '?')) := by
  induction args generalizing s with
  | nil => simp
  | cons a args ih =>
    by_cases h0 : s.count '?' = 0
    · have hs : '?' ∉ s := List.count_eq_zero.mp h0
      rw [renderChars_of_not_mem _ _ hs, renderChars_of_not_mem _ _ hs]
    · obtain ⟨k, hk⟩ : ∃ k, s.count '?' = k + 1 := ⟨s.count '?' - 1, by omega⟩
      rw [hk, List.take_succ_cons] at h ⊢
      have ha : (formatArg a).data.count '?' = 0 := List.count_eq_zero.mpr (h a (by simp))
      have hc : (strings.replaceChars '?' (formatArg a).data 1 s).count '?' = k := by
        rw [count_replaceChars_one _ _ _ (by omega), ha, hk]
        rfl
      have step := ih (strings.replaceChars '?' (formatArg a).data 1 s)
        (by rw [hc]; exact fun b hb => h b (by simp [hb]))
      rw [hc] at step
      simp only [renderChars, List.foldl_cons] at step ⊢
      exact step

/-! ## The debug renderer: balanced placeholders -/

/-- C7 (as stated, refuted): for the text `at = ?` and a timestamp parameter the
renderer puts the quoted `YYYY-MM-DD HH:MM:SS` form at the placeholder, not the
default conversion of the value. -/
theorem C7_timestamp_not_default_conversion :
    strings.Count "at = " '?' = 0 ∧ strings.Count "" '?' = 0
    ∧ strings.Count (threeKindFormat (.time sampleTime)) '?' = 0
    ∧ strings.Count (formatArg (.time sampleTime)) '?' = 0
    ∧ ReplaceQueryParams "at = ?" [.time sampleTime] = "at = '2009-11-10 23:00:00'"
    ∧ "at = " ++ threeKindFormat (.time sampleTime) ++ "" = "at = 2009-11-10 23:00:00 +0000 UTC"
    ∧ ReplaceQueryParams "at = ?" [.time sampleTime]
        ≠ "at = " ++ threeKindFormat (.time sampleTime) ++ "" := by
  decide

/-- C7 (amended): for every text `p_0 ? p_1 ? ... ? p_n` with `n ≥ 1` and no `?`
inside any `p_i` (so exactly `n` placeholders) and every list of `n` parameters
whose formatted values contain no `?`, `ReplaceQueryParams` returns
`p_0 + f(a_1) + p_1 + ... + f(a_n) + p_n`, where `f` renders a string in single
quotes without escaping, a timestamp as the single-quoted `YYYY-MM-DD HH:MM:SS`
form, nil as `NULL`, and any other value by its default conversion (an integer
as its decimal digits). -/
theorem C7_ReplaceQueryParams_balanced (p0 : String) (ps : List String) (args : List Value)
    (hlen : args.length = ps.length) (hn : 1 ≤ args.length)
    (hp0 : strings.Count p0 '?' = 0) (hps : ∀ p ∈ ps, strings.Count p '?' = 0)
    (hargs : ∀ a ∈ args, strings.Count (formatArg a) '?' = 0) :
    strings.Count (p0 ++ String.join (ps.map (fun p => "?" ++ p))) '?' = args.length
    ∧ ReplaceQueryParams (p0 ++ String.join (ps.map (fun p => "?" ++ p))) args
        = p0 ++ String.join (List.zipWith (fun a p => formatArg a ++ p) args ps)
    ∧ (∀ s, formatArg (.str s) = "'" ++ s ++ "'")
    ∧ (∀ t, formatArg (.time t) = "'" ++ t.Format ++ "'")
    ∧ formatArg .null = "NULL"
    ∧ (∀ v, (∀ s, v ≠ .str s) → (∀ t, v ≠ .time t) → v ≠ .null → formatArg v = fmt.Sprintv v)
    ∧ (∀ i : Int, fmt.Sprintv (.int i) = toString i) := by
  have hp0' : '?' ∉ p0.data := List.count_eq_zero.mp hp0
  have hps' : ∀ p ∈ ps, '?' ∉ p.data := fun p hp => List.count_eq_zero.mp (hps p hp)
  have hargs' : ∀ a ∈ args, '?' ∉ (formatArg a).data :=
    fun a ha => List.count_eq_zero.mp (hargs a ha)
  refine ⟨?_, ?_, fun _ => rfl, fun _ => rfl, rfl, ?_, fun _ => rfl⟩
  · have h0 : p0.data.count '?' = 0 := hp0
    simp only [strings.Count, String.data_append, List.count_append, h0, Nat.zero_add]
    rw [count_weave ps hps', hlen]
  · apply String.ext
    rw [ReplaceQueryParams_data, String.data_append, String.data_append]
    exact renderChars_weave args ps p0.data hlen hp0' hps' hargs'
  · intro v h1 h2 h3
    cases v with
    | str s => exact absurd rfl (h1 s)
    | time t => exact absurd rfl (h2 t)
    | null => exact absurd rfl h3
    | int i => rfl
    | other r => rfl

/-- Witness for C7: `WHERE id = ? AND name = ?` with the parameters `7` and
`bob` renders as `WHERE id = 7 AND name = 'bob'`. -/
theorem C7_ReplaceQueryParams_balanced_witness :
    "WHERE id = " ++ String.join ([" AND name = ", ""].map (fun p => "?" ++ p))
      = "WHERE id = ? AND name = ?"
    ∧ ReplaceQueryParams "WHERE id = ? AND name = ?" [.int 7, .str "bob"]
      = "WHERE id = 7 AND name = 'bob'" :=
  ⟨by decide,
   ((C7_ReplaceQueryParams_balanced "WHERE id = " [" AND name = ", ""] [.int 7, .str "bob"]
      (by decide) (by decide) (by decide) (by decide) (by decide)).2.1).trans (by decide)⟩

/-! ## The debug renderer: more parameters than placeholders -/

/-- C8 (as stated, refuted): with the text `?` and the two string parameters `?`
and `x`, the second parameter is not dropped: it lands on the `?` that the first
one brought in. -/
theorem C8_extra_parameter_not_dropped :
    strings.Count "?" '?' = 1
    ∧ [Value.str "?", Value.str "x"].length > strings.Count "?" '?'
    ∧ ReplaceQueryParams "?" [.str "?", .str "x"] = "''x''"
    ∧ ReplaceQueryParams "?" ([Value.str "?", Value.str "x"].take 1) = "'?'"
    ∧ ReplaceQueryParams "?" [.str "?", .str "x"]
        ≠ ReplaceQueryParams "?" ([Value.str "?", Value.str "x"].take 1) := by
  decide

/-- C8 (amended): for every text with `k` placeholders and every parameter list
with more than `k` elements, provided the formatted values of the first `k`
parameters contain no `?`, the parameters after the first `k` are dropped:
the result equals that for the first `k` parameters when `k ≥ 1` and equals
the text when `k = 0`. -/
theorem C8_ReplaceQueryParams_extra_dropped (text : String) (args : List Value)
    (hmore : strings.Count text '?' < args.length)
    (hclean : ∀ a ∈ args.take (strings.Count text '?'), strings.Count (formatArg a) '?' = 0) :
    (1 ≤ strings.Count text '?' →
        ReplaceQueryParams text args
          = ReplaceQueryParams text (args.take (strings.Count text '?')))
    ∧ (strings.Count text '?' = 0 → ReplaceQueryParams text args = text) := by
  have key : ReplaceQueryParams text args
      = ReplaceQueryParams text (args.take (strings.Count text '?')) := by
    apply String.ext
    rw [ReplaceQueryParams_data, ReplaceQueryParams_data]
    exact renderChars_take args text.data (fun a ha => List.count_eq_zero.mp (hclean a ha))
  refine ⟨fun _ => key, fun h0 => ?_⟩
  rw [key, h0]
  rfl

/-- Witness for C8: one placeholder, two parameters. -/
theorem C8_ReplaceQueryParams_extra_dropped_witness :
    ReplaceQueryParams "id = ?" [.int 7, .str "bob"]
      = ReplaceQueryParams "id = ?" ([Value.int 7, Value.str "bob"].take
          (strings.Count "id = ?" '?')) :=
  (C8_ReplaceQueryParams_extra_dropped "id = ?" [.int 7, .str "bob"]
    (by decide) (by decide)).1 (by decide)

/-! ## The debug renderer: fewer parameters than placeholders -/

/-- C9: for every text with `k` placeholders and every non-empty parameter list
of length `n < k`, the part of the text after its `n`-th `?`, which holds the last
`k - n` placeholders, is a suffix of the output, so the output contains at least
`k - n` characters `?`. -/
theorem C9_ReplaceQueryParams_trailing_placeholders (text : String) (args : List Value)
    (hne : args ≠ []) (hfew : args.length < strings.Count text '?') :
    dropThrough '?' args.length text.data <:+ (ReplaceQueryParams text args).data
    ∧ (dropThrough '?' args.length text.data).count '?'
        = strings.Count text '?' - args.length
    ∧ strings.Count text '?' - args.length
        ≤ strings.Count (ReplaceQueryParams text args) '?' := by
  have hfew' : args.length ≤ text.data.count '?' := Nat.le_of_lt hfew
  obtain ⟨out, hout⟩ := renderChars_suffix args [] text.data hfew'
  rw [List.nil_append] at hout
  have hsuf : dropThrough '?' args.length text.data <:+ (ReplaceQueryParams text args).data := by
    rw [ReplaceQueryParams_data, hout]
    exact List.suffix_append _ _
  have hcount := count_dropThrough '?' args.length text.data
  refine ⟨hsuf, hcount, ?_⟩
  have := hsuf.sublist.count_le '?'
  rw [hcount] at this
  exact this

/-- Witness for C9: three placeholders, two parameters. -/
theorem C9_ReplaceQueryParams_trailing_placeholders_witness :
    dropThrough '?' 2 "a = ? AND b = ? AND c = ?".data
      <:+ (ReplaceQueryParams "a = ? AND b = ? AND c = ?" [.int 1, .str "x"]).data :=
  (C9_ReplaceQueryParams_trailing_placeholders "a = ? AND b = ? AND c = ?" [.int 1, .str "x"]
    (by decide) (by decide)).1

/-! ## The debug renderer: no parameter -/

/-- C10: for every text, `ReplaceQueryParams` with an empty (or nil) parameter
list returns the text unchanged. -/
theorem C10_ReplaceQueryParams_no_params (text : String) :
    ReplaceQueryParams text [] = text := rfl

/-! ## The recursive common-table-expression wrapper -/

/-- C11: for every name and every input store `q`, the store returned by
`WithRecursive(name, q)` has `WITH RECURSIVE name AS (text of q)` as its sole
with-fragment and the `Build` parameters of `q` as params, and `Build` on it does
not emit the prefix: it returns the text `SELECT * FROM ` (empty source, nothing
of the text of `q`) together with the parameter list of `q`. -/
theorem C11_WithRecursive_prefix_not_emitted (name : String) (q : QueryBuilder) :
    (WithRecursive name q).with_ = ["WITH RECURSIVE " ++ name ++ " AS (" ++ q.Build.1 ++ ")"]
    ∧ (WithRecursive name q).params = q.Build.2
    ∧ (WithRecursive name q).Build = ("SELECT * FROM ", q.Build.2) := by
  refine ⟨rfl, ?_, ?_⟩
  · simp [WithRecursive, New]
  · simp [WithRecursive, New, QueryBuilder.Build, QueryBuilder.buildParts, strings.Join]

/-! ## Subqueries -/

/-- C12: for every store and every alias, `SubQuery(alias)` returns exactly
`(` + `Build` text + `) AS ` + alias; it depends on the store only through its
`Build` text, so two stores with the same `Build` text give the same result
whatever their parameter lists are. -/
theorem C12_SubQuery_text_only (qb qb2 : QueryBuilder) (alias_ : String) :
    qb.SubQuery alias_ = "(" ++ qb.Build.1 ++ ") AS " ++ alias_
    ∧ (qb2.Build.1 = qb.Build.1 → qb2.SubQuery alias_ = qb.SubQuery alias_) := by
  refine ⟨rfl, fun h => ?_⟩
  simp only [QueryBuilder.SubQuery, h]

/-- Witness for C12: the same text with and without a stored parameter. -/
theorem C12_SubQuery_text_only_witness :
    ((New.From "t").Having "n > ?" [.int 1]).params ≠ (New.From "t").params
    ∧ ((New.From "t").Having "n > ?" [.int 1]).SubQuery "s" = (New.From "t").SubQuery "s" :=
  ⟨by decide,
   (C12_SubQuery_text_only (New.From "t") ((New.From "t").Having "n > ?" [.int 1]) "s").2 rfl⟩

/-! ## Parameters follow call order -/

theorem params_calls (qb : QueryBuilder) (cs : List Call) :
    (qb.calls cs).params = qb.params ++ (cs.map Call.params).flatten := by
  induction cs generalizing qb with
  | nil => simp [QueryBuilder.calls]
  | cons c cs ih =>
    have step := ih (qb.call c)
    simp only [QueryBuilder.calls, List.foldl_cons] at step ⊢
    rw [step]
    cases c <;>
      simp [QueryBuilder.call, Call.params, QueryBuilder.Select, QueryBuilder.From,
        QueryBuilder.Join, QueryBuilder.Where, QueryBuilder.GroupBy, QueryBuilder.OrderBy,
        QueryBuilder.Limit, QueryBuilder.Offset, QueryBuilder.Having, QueryBuilder.Raw]

/-- C13: for every finite sequence of mutator calls applied to `New()`, the
parameter list `Build` returns is the concatenation, in call order, of the
`params` arguments of the calls (only `Join`, `Where`, `Having` and `Raw` pass
any), whatever the order in which the clauses are rendered; so `Where(a = ?, 1)`
followed by `Join(JOIN t ON x = ?, 2)` returns `[1, 2]` although the join
placeholder comes first in the text. -/
theorem C13_params_in_call_order (cs : List Call) :
    (New.calls cs).Build.2 = (cs.map Call.params).flatten
    ∧ (New.calls [.Where "a = ?" [.int 1], .Join "JOIN t ON x = ?" [.int 2]]).Build
        = ("SELECT * FROM  JOIN t ON x = ? WHERE a = ?", [.int 1, .int 2]) := by
  refine ⟨?_, by decide⟩
  show (New.calls cs).params = _
  rw [params_calls]
  rfl

/-! ## Mutators only append -/

/-- C14: every mutator is append-only on the sequence fields: after any call the
earlier value of each sequence field and of params is a prefix of the new one,
each sequence field grows by exactly the fragments the call passes for it
(nothing for a field the call does not target), params grows by exactly the
params passed, and from, limit and offset change only under `From`, `Limit` and
`Offset`. -/
theorem C14_mutators_append_only (qb : QueryBuilder) (c : Call) :
    (∀ s : Slot, slotOf qb s <+: slotOf (qb.call c) s)
    ∧ qb.params <+: (qb.call c).params
    ∧ (∀ s : Slot, slotOf (qb.call c) s = slotOf qb s ++ c.fragments s)
    ∧ (qb.call c).params = qb.params ++ c.params
    ∧ (qb.call c).from_ = (match c with | .From table => table | _ => qb.from_)
    ∧ (qb.call c).limit = (match c with | .Limit limit => limit | _ => qb.limit)
    ∧ (qb.call c).offset = (match c with | .Offset offset => offset | _ => qb.offset) := by
  have hslot : ∀ s : Slot, slotOf (qb.call c) s = slotOf qb s ++ c.fragments s := by
    intro s
    cases c <;> cases s <;>
      simp [QueryBuilder.call, slotOf, Call.fragments, QueryBuilder.Select,
        QueryBuilder.From, QueryBuilder.Join, QueryBuilder.Where, QueryBuilder.GroupBy,
        QueryBuilder.OrderBy, QueryBuilder.Limit, QueryBuilder.Offset, QueryBuilder.Having,
        QueryBuilder.Raw]
  have hparams : (qb.call c).params = qb.params ++ c.params := by
    cases c <;>
      simp [QueryBuilder.call, Call.params, QueryBuilder.Select, QueryBuilder.From,
        QueryBuilder.Join, QueryBuilder.Where, QueryBuilder.GroupBy, QueryBuilder.OrderBy,
        QueryBuilder.Limit, QueryBuilder.Offset, QueryBuilder.Having, QueryBuilder.Raw]
  refine ⟨fun s => ?_, ?_, hslot, hparams, ?_, ?_, ?_⟩
  · rw [hslot s]
    exact List.prefix_append _ _
  · rw [hparams]
    exact List.prefix_append _ _
  · cases c <;> rfl
  · cases c <;> rfl
  · cases c <;> rfl

/-! ## Scalar slots are overwritten -/

/-- C15: `From`, `Limit` and `Offset` overwrite rather than append: the store
after `From(a)` then `From(b)` is the store after `From(b)` alone, likewise for
`Limit` and `Offset`, so `Build` sees only the last value. -/
theorem C15_From_Limit_Offset_overwrite (qb : QueryBuilder) (a b : String) (m n : Int) :
    (qb.From a).From b = qb.From b
    ∧ (qb.Limit m).Limit n = qb.Limit n
    ∧ (qb.Offset m).Offset n = qb.Offset n
    ∧ ((qb.From a).From b).Build = (qb.From b).Build
    ∧ ((qb.Limit m).Limit n).Build = (qb.Limit n).Build
    ∧ ((qb.Offset m).Offset n).Build = (qb.Offset n).Build := by
  refine ⟨?_, ?_, ?_, ?_, ?_, ?_⟩ <;> rfl

/-! ## The assembler is read-only -/

/-- C16: the assembler is read-only and repeatable: `Build` and `BuildCount`
leave every field of the store unchanged, so `Build`, `BuildCount`, `String`,
`Params`, `GetQuery` and `SubQuery` called after a `Build` return what they
return before it, with `String() = Build().text`, `Params() = Build().params`
and `GetQuery() = Build()`. -/
theorem C16_assembler_read_only (qb : QueryBuilder) (alias_ : String) :
    (stepBuild qb).2 = qb ∧ (stepBuildCount qb).2 = qb
    ∧ (stepBuild qb).1 = qb.Build ∧ (stepBuildCount qb).1 = qb.BuildCount
    ∧ stepBuild (stepBuild qb).2 = stepBuild qb
    ∧ stepBuildCount (stepBuild qb).2 = stepBuildCount qb
    ∧ stepString (stepBuild qb).2 = stepString qb
    ∧ stepParams (stepBuild qb).2 = stepParams qb
    ∧ stepGetQuery (stepBuild qb).2 = stepGetQuery qb
    ∧ stepSubQuery (stepBuild qb).2 alias_ = stepSubQuery qb alias_
    ∧ stepBuild (stepBuildCount qb).2 = stepBuild qb
    ∧ (stepString qb).1 = (stepBuild qb).1.1
    ∧ (stepParams qb).1 = (stepBuild qb).1.2
    ∧ stepGetQuery qb = stepBuild qb
    ∧ qb.String = qb.Build.1 ∧ qb.Params = qb.Build.2 ∧ qb.GetQuery = qb.Build := by
  refine ⟨?_, ?_, ?_, ?_, ?_, ?_, ?_, ?_, ?_, ?_, ?_, ?_, ?_, ?_, ?_, ?_, ?_⟩ <;> rfl

/-! ## Calls on different clauses commute in the text -/

/-- C17: for every store and any two mutator calls that target different clause
slots among select, from, join, where, group-by, order-by, limit and offset,
applying the two calls in either order gives the same `Build` text and the same
`BuildCount` text. -/
theorem C17_different_clauses_commute (qb : QueryBuilder) (c1 c2 : Call) (k1 k2 : Clause)
    (h1 : c1.clause = some k1) (h2 : c2.clause = some k2) (hne : k1 ≠ k2) :
    ((qb.call c1).call c2).Build.1 = ((qb.call c2).call c1).Build.1
    ∧ ((qb.call c1).call c2).BuildCount.1 = ((qb.call c2).call c1).BuildCount.1 := by
  cases c1 <;> cases c2 <;> simp only [Call.clause, Option.some.injEq] at h1 h2 <;>
    first
    | exact ⟨rfl, rfl⟩
    | exact absurd (h1.symm.trans h2) hne

/-- Witness for C17: `Where` then `Join` against `Join` then `Where`. -/
theorem C17_different_clauses_commute_witness :
    (((New.From "t").Where "a = ?" [.int 1]).Join "JOIN u ON x = ?" [.int 2]).Build.1
      = (((New.From "t").Join "JOIN u ON x = ?" [.int 2]).Where "a = ?" [.int 1]).Build.1
    ∧ (((New.From "t").Where "a = ?" [.int 1]).Join "JOIN u ON x = ?" [.int 2]).Build.2
      ≠ (((New.From "t").Join "JOIN u ON x = ?" [.int 2]).Where "a = ?" [.int 1]).Build.2 :=
  ⟨(C17_different_clauses_commute (New.From "t") (.Where "a = ?" [.int 1])
      (.Join "JOIN u ON x = ?" [.int 2]) .where_ .join rfl rfl (by decide)).1,
   by decide⟩

/-! ## Re-building a union -/

theorem Union_eq (queries : List QueryBuilder) :
    Union queries =
      { New with
        from_ := " UNION ALL ".intercalate (queries.map (fun q => "(" ++ q.Build.1 ++ ")")),
        params := (queries.map (fun q => q.Build.2)).flatten } := by
  have e : (" " : String) ++ "UNION ALL" ++ " " = " UNION ALL " := by decide
  simp only [Union]
  rw [unionLoop_eq queries.length queries 0 [] [] (by simp)]
  simp only [List.nil_append]
  rw [Join_intersperse, e, Join_eq_intercalate]

theorem Build_from_only (source : String) (ps : List Value) :
    ({ New with from_ := source, params := ps } : QueryBuilder).Build
      = ("SELECT * FROM " ++ source, ps) := by
  simp [New, QueryBuilder.Build, QueryBuilder.buildParts, strings.Join, ← String.append_assoc]

/-- C18: re-building a union result wraps it in a default select: for all stores
`a` and `b`, `Build(Union(a, b))` returns the text
`SELECT * FROM (text of a) UNION ALL (text of b)` and the parameter list
`params of a ++ params of b`. -/
theorem C18_Build_of_Union (a b : QueryBuilder) :
    (Union [a, b]).Build =
      ("SELECT * FROM (" ++ a.Build.1 ++ ") UNION ALL (" ++ b.Build.1 ++ ")",
       a.Build.2 ++ b.Build.2) := by
  rw [Union_eq, Build_from_only]
  simp only [List.map, intercalate_cons_cons, String.intercalate, String.intercalate.go,
    List.flatten, List.append_nil, String.append_assoc]
  rfl

/-! ## The debug renderer: no placeholder -/

/-- C20: for every text without a `?` and every parameter list, of any length
and any values, `ReplaceQueryParams` returns the text unchanged. -/
theorem C20_ReplaceQueryParams_no_placeholder (text : String) (args : List Value)
    (h : strings.Count text '?' = 0) : ReplaceQueryParams text args = text := by
  apply String.ext
  rw [ReplaceQueryParams_data]
  exact renderChars_of_not_mem text.data args (List.count_eq_zero.mp h)

/-- Witness for C20: three parameters, one of them holding a `?`, no placeholder. -/
theorem C20_ReplaceQueryParams_no_placeholder_witness :
    ReplaceQueryParams "SELECT * FROM t" [.int 7, .str "a?b", .null] = "SELECT * FROM t" :=
  C20_ReplaceQueryParams_no_placeholder "SELECT * FROM t" [.int 7, .str "a?b", .null]
    (by decide)

/-! ## Placeholder and parameter balance -/

theorem Count_append (a b : String) (c : Char) :
    strings.Count (a ++ b) c = strings.Count a c + strings.Count b c := by
  simp [strings.Count, List.count_append]

theorem placeholders_nil : placeholders [] = 0 := rfl

theorem placeholders_cons (a : String) (l : List String) :
    placeholders (a :: l) = strings.Count a '?' + placeholders l := by
  simp [placeholders]

theorem placeholders_append (l1 l2 : List String) :
    placeholders (l1 ++ l2) = placeholders l1 + placeholders l2 := by
  simp [placeholders]

theorem placeholders_eq_zero (l : List String) (h : ∀ c ∈ l, strings.Count c '?' = 0) :
    placeholders l = 0 := by
  induction l with
  | nil => rfl
  | cons a l ih =>
    rw [placeholders_cons, h a (by simp), ih (fun c hc => h c (by simp [hc]))]

theorem Count_Join (l : List String) (sep : String) (h : strings.Count sep '?' = 0) :
    strings.Count (strings.Join l sep) '?' = placeholders l := by
  induction l with
  | nil => rfl
  | cons a l ih =>
    cases l with
    | nil => simp [strings.Join, placeholders]
    | cons b l =>
      rw [Join_cons a (b :: l) sep (by simp), Count_append, Count_append, h, ih,
        placeholders_cons a]
      omega

theorem ite_ne_of_ne {α : Type} (c : Prop) [Decidable c] (a b x : α) (ha : a ≠ x)
    (hb : b ≠ x) : (if c then a else b) ≠ x := by
  split <;> assumption

theorem digitChar_ne_placeholder (d : Nat) : Nat.digitChar d ≠ '?' := by
  unfold Nat.digitChar
  iterate 16 refine ite_ne_of_ne _ _ _ _ (by decide) ?_
  decide

theorem toDigitsCore_no_placeholder (fuel n : Nat) (ds : List Char) (h : '?' ∉ ds) :
    '?' ∉ Nat.toDigitsCore 10 fuel n ds := by
  induction fuel generalizing n ds with
  | zero => simpa [Nat.toDigitsCore] using h
  | succ fuel ih =>
    have hd : '?' ∉ Nat.digitChar (n % 10) :: ds := by
      simp only [List.mem_cons, not_or]
      exact ⟨fun e => digitChar_ne_placeholder _ e.symm, h⟩
    simp only [Nat.toDigitsCore]
    split
    · exact hd
    · exact ih _ _ hd

theorem Count_repr (n : Nat) : strings.Count (Nat.repr n) '?' = 0 := by
  apply List.count_eq_zero.mpr
  exact toDigitsCore_no_placeholder _ _ _ (by simp)

theorem Count_Sprintd (i : Int) : strings.Count (fmt.Sprintd i) '?' = 0 := by
  cases i with
  | ofNat m => exact Count_repr m
  | negSucc m =>
    show strings.Count ("-" ++ Nat.repr (Nat.succ m)) '?' = 0
    rw [Count_append, Count_repr]
    decide

theorem buildParts_eq (qb : QueryBuilder) :
    qb.buildParts =
      [if qb.select_ = [] then "SELECT *" else "SELECT " ++ strings.Join qb.select_ ", "]
        ++ ["FROM " ++ qb.from_]
        ++ (if qb.joins = [] then [] else [strings.Join qb.joins " "])
        ++ (if qb.where_ = [] then [] else ["WHERE " ++ strings.Join qb.where_ " AND "])
        ++ (if qb.groupBy = [] then [] else ["GROUP BY " ++ strings.Join qb.groupBy ", "])
        ++ (if qb.orderBy = [] then [] else ["ORDER BY " ++ strings.Join qb.orderBy ", "])
        ++ (if 0 < qb.limit then
              (if 0 < qb.offset then
                ["LIMIT " ++ fmt.Sprintd qb.limit, "OFFSET " ++ fmt.Sprintd qb.offset]
              else ["LIMIT " ++ fmt.Sprintd qb.limit])
            else []) := by
  rw [buildParts_paging]
  congr 1
  simp only [QueryBuilder.buildParts, unpaged, length_pos_iff_ne_nil, gt_iff_lt,
    Int.lt_irrefl, if_false]
  by_cases h1 : qb.select_ = [] <;> by_cases h2 : qb.joins = [] <;>
    by_cases h3 : qb.where_ = [] <;> by_cases h4 : qb.groupBy = [] <;>
    by_cases h5 : qb.orderBy = [] <;>
    simp only [h1, h2, h3, h4, h5, if_true, if_false, not_true_eq_false,
      not_false_eq_true, ne_eq] <;> rfl

theorem placeholders_clause (pre sep : String) (l : List String)
    (hp : strings.Count pre '?' = 0) (hs : strings.Count sep '?' = 0) :
    placeholders (if l = [] then [] else [pre ++ strings.Join l sep]) = placeholders l := by
  split
  · next h => rw [h]
  · rw [placeholders_cons, placeholders_nil, Count_append, hp, Count_Join l sep hs]
    omega

theorem Count_Build (qb : QueryBuilder) :
    strings.Count qb.Build.1 '?' =
      placeholders qb.select_ + strings.Count qb.from_ '?' + placeholders qb.joins
        + placeholders qb.where_ + placeholders qb.groupBy + placeholders qb.orderBy := by
  have hsel : placeholders
      [if qb.select_ = [] then "SELECT *" else "SELECT " ++ strings.Join qb.select_ ", "]
        = placeholders qb.select_ := by
    split
    · next h =>
      rw [h, placeholders_cons, placeholders_nil]
      decide
    · rw [placeholders_cons, placeholders_nil, Count_append, Count_Join _ _ (by decide)]
      have : strings.Count "SELECT " '?' = 0 := by decide
      omega
  have hfrom : placeholders ["FROM " ++ qb.from_] = strings.Count qb.from_ '?' := by
    rw [placeholders_cons, placeholders_nil, Count_append]
    have : strings.Count "FROM " '?' = 0 := by decide
    omega
  have hjoin : placeholders (if qb.joins = [] then [] else [strings.Join qb.joins " "])
      = placeholders qb.joins :=
    placeholders_clause "" " " qb.joins (by decide) (by decide)
  have hpage : placeholders
      (if 0 < qb.limit then
        (if 0 < qb.offset then
          ["LIMIT " ++ fmt.Sprintd qb.limit, "OFFSET " ++ fmt.Sprintd qb.offset]
        else ["LIMIT " ++ fmt.Sprintd qb.limit])
      else []) = 0 := by
    have l7 : strings.Count "LIMIT " '?' = 0 := by decide
    have l8 : strings.Count "OFFSET " '?' = 0 := by decide
    split_ifs <;>
      simp only [placeholders_cons, placeholders_nil, Count_append, Count_Sprintd, l7, l8]
  simp only [QueryBuilder.Build]
  rw [Count_Join _ " " (by decide), buildParts_eq]
  simp only [placeholders_append]
  rw [hsel, hfrom, hjoin, hpage,
    placeholders_clause "WHERE " " AND " qb.where_ (by decide) (by decide),
    placeholders_clause "GROUP BY " ", " qb.groupBy (by decide) (by decide),
    placeholders_clause "ORDER BY " ", " qb.orderBy (by decide) (by decide)]
  omega

theorem Count_BuildCount (qb : QueryBuilder) :
    strings.Count qb.BuildCount.1 '?' =
      strings.Count qb.from_ '?' + placeholders qb.joins + placeholders qb.where_ := by
  have l1 : strings.Count "SELECT COUNT(*) as count" '?' = 0 := by decide
  have l3 : strings.Count "FROM " '?' = 0 := by decide
  have l4 : strings.Count "WHERE " '?' = 0 := by decide
  have j2 := fun l => Count_Join l " " (by decide)
  have j3 := fun l => Count_Join l " AND " (by decide)
  simp only [QueryBuilder.BuildCount]
  rw [j2]
  simp only [QueryBuilder.buildCountParts, length_pos_iff_ne_nil, gt_iff_lt]
  by_cases h2 : qb.joins = [] <;> by_cases h3 : qb.where_ = [] <;>
    simp [h2, h3, placeholders_cons, placeholders_nil, Count_append, l1, l3, l4, j2, j3]
  omega

theorem Balanced_New : Balanced New := by
  refine ⟨rfl, ?_, rfl, rfl, rfl⟩
  decide

theorem Balanced_call (qb : QueryBuilder) (c : Call) (hb : Balanced qb) (hc : c.balanced) :
    Balanced (qb.call c) := by
  obtain ⟨b1, b2, b3, b4, b5⟩ := hb
  cases c with
  | Select columns =>
    refine ⟨?_, b2, b3, b4, b5⟩
    show placeholders (qb.select_ ++ columns) = 0
    rw [placeholders_append, b1, placeholders_eq_zero columns hc]
  | From table => exact ⟨b1, hc, b3, b4, b5⟩
  | Join join params =>
    refine ⟨b1, b2, b3, b4, ?_⟩
    show placeholders (qb.joins ++ [join]) + placeholders qb.where_
      = (qb.params ++ params).length
    have hc' : params.length = strings.Count join '?' := hc
    rw [placeholders_append, placeholders_cons, placeholders_nil, List.length_append, hc']
    omega
  | Where condition params =>
    refine ⟨b1, b2, b3, b4, ?_⟩
    show placeholders qb.joins + placeholders (qb.where_ ++ [condition])
      = (qb.params ++ params).length
    have hc' : params.length = strings.Count condition '?' := hc
    rw [placeholders_append, placeholders_cons, placeholders_nil, List.length_append, hc']
    omega
  | GroupBy columns =>
    refine ⟨b1, b2, ?_, b4, b5⟩
    show placeholders (qb.groupBy ++ columns) = 0
    rw [placeholders_append, b3, placeholders_eq_zero columns hc]
  | OrderBy order =>
    refine ⟨b1, b2, b3, ?_, b5⟩
    show placeholders (qb.orderBy ++ [order]) = 0
    have hc' : strings.Count order '?' = 0 := hc
    rw [placeholders_append, b4, placeholders_cons, placeholders_nil, hc']
  | Limit limit => exact ⟨b1, b2, b3, b4, b5⟩
  | Offset offset => exact ⟨b1, b2, b3, b4, b5⟩
  | Having condition params => exact absurd hc id
  | Raw sql params => exact absurd hc id

theorem Balanced_calls (qb : QueryBuilder) (cs : List Call) (hb : Balanced qb)
    (hcs : ∀ c ∈ cs, c.balanced) : Balanced (qb.calls cs) := by
  induction cs generalizing qb with
  | nil => exact hb
  | cons c cs ih =>
    exact ih (qb.call c) (Balanced_call qb c hb (hcs c (by simp)))
      (fun d hd => hcs d (by simp [hd]))

/-- C19: for every store obtained from `New()` by a sequence of `Select`, `From`,
`GroupBy`, `OrderBy`, `Limit`, `Offset`, `Join` and `Where` calls in which no
select, from, group-by or order-by fragment contains `?` and every `Join` or
`Where` call passes exactly as many params as its fragment has `?` characters,
the number of `?` characters in the `Build` text equals the length of the
`Build` parameter list, and the same holds for `BuildCount`. -/
theorem C19_placeholder_balance (cs : List Call) (hcs : ∀ c ∈ cs, c.balanced) :
    strings.Count (New.calls cs).Build.1 '?' = (New.calls cs).Build.2.length
    ∧ strings.Count (New.calls cs).BuildCount.1 '?' = (New.calls cs).BuildCount.2.length := by
  obtain ⟨b1, b2, b3, b4, b5⟩ := Balanced_calls New cs Balanced_New hcs
  constructor
  · rw [Count_Build, b1, b2, b3, b4]
    show _ = (New.calls cs).params.length
    omega
  · rw [Count_BuildCount, b2]
    show _ = (New.calls cs).params.length
    omega

/-- Witness for C19: a join and a where with one placeholder each, a select, a
limit and an offset. -/
theorem C19_placeholder_balance_witness :
    strings.Count (New.calls [.Select ["a", "b"], .From "t", .Where "a = ?" [.int 1],
        .Join "JOIN u ON u.x = ?" [.str "k"], .Limit 5, .Offset 10]).Build.1 '?'
      = (New.calls [.Select ["a", "b"], .From "t", .Where "a = ?" [.int 1],
        .Join "JOIN u ON u.x = ?" [.str "k"], .Limit 5, .Offset 10]).Build.2.length :=
  (C19_placeholder_balance [.Select ["a", "b"], .From "t", .Where "a = ?" [.int 1],
      .Join "JOIN u ON u.x = ?" [.str "k"], .Limit 5, .Offset 10]
    (by decide)).1

end goquerybuilder
